import Mathlib

/-!
Shallow embedding of the ingestion and reconciliation engine of the
Kadena blockchain indexer, together with proofs about the behaviour of
its archive path (`processKeys`), its streaming path (`startStreaming` /
`saveBlock`), the error-retry sweep (`startRetryErrors`), the guards
reconciler (`backfillGuards`), the event/block repositories, and the
64-bit feature-flag reinterpretation.

Conventions of the embedding:
* The S3 listing is a pure function from the `startAfter` cursor to the
  page of keys it returns; per-key materialisation is a pure function
  returning `Except Unit (Option DispatchInfo)` (a thrown error, a null
  dispatch, or a dispatch record).
* A sequelize transaction is modelled by accumulating the writes of the
  run and applying them to the database state only on `commit`; on
  `rollback` the initial state is returned unchanged.
* The Publication Bus (`addPublishEvents` of `jobs/publisher-job`, whose
  implementation is not part of the sources) is modelled from the spec:
  appends are buffered against the caller's transaction, delivered on
  commit and discarded on rollback.
* The JS `while` loops are given fuel: the fuel plays the role of
  `maxIterations`; a run without `maxIterations` corresponds to any fuel
  larger than the number of non-empty pages of the listing.
-/

/-- The record published to subscribers when a block is materialised
(`DispatchInfo` of `jobs/publisher-job`). -/
structure DispatchInfo where
  hash : String
  chainId : String
  height : Nat
  requestKeys : List String
  qualifiedEventNames : List String
deriving Repr, DecidableEq

/-- Database state seen by the archive path: the blocks persisted by the
materialiser (identified by the S3 key that produced them), the stored
`SyncStatus` cursor for the run's `(network, chainId, keyPrefixOfRun,
SOURCE_S3)` identity, and the `DispatchInfo` records delivered on the
Publication Bus. -/
structure ArchiveDb where
  blocks : List String
  cursor : Option String
  bus : List DispatchInfo
deriving Repr, DecidableEq

/-- Result of one call of the per-key materialiser, with the thrown
error collapsed to `Unit`. -/
def pkResult (pk : String → Except Unit (Option DispatchInfo)) (k : String) :
    Option DispatchInfo :=
  match pk k with
  | .ok d => d
  | .error _ => none

/-- The fan-out of one page (`Promise.all(keys.map(key => processKey(network, key, tx)))`):
succeeds with the list of per-key results iff every key succeeds, and
rejects as soon as any key rejects. -/
def processPage (pk : String → Except Unit (Option DispatchInfo)) :
    List String → Except Unit (List (Option DispatchInfo))
  | [] => .ok []
  | k :: ks =>
    match pk k, processPage pk ks with
    | .error e, _ => .error e
    | .ok _, .error e => .error e
    | .ok d, .ok ds => .ok (d :: ds)

/-- The page loop of `processKeys`: starting from cursor `c`, repeatedly
list a page, fan out the materialiser over its keys, buffer the non-null
`DispatchInfo` results for publication, advance `startAfter` to the last
key of the page, and count the processed keys, until a listing is empty
or the fuel (`maxIterations`) runs out.  The result carries the final
`startAfter`, the keys materialised inside the transaction and the
buffered publish batch, or the first error raised. -/
def runPages (listS3 : Option String → List String)
    (pk : String → Except Unit (Option DispatchInfo)) :
    Nat → Option String →
      Except Unit (Option String × List String × List DispatchInfo) × Nat
  | 0, c => (.ok (c, [], []), 0)
  | fuel + 1, c =>
    match listS3 c with
    | [] => (.ok (c, [], []), 0)
    | k :: ks =>
      match processPage pk (k :: ks) with
      | .error e => (.error e, 0)
      | .ok ds =>
        match runPages listS3 pk fuel (some ((k :: ks).getLast (List.cons_ne_nil k ks))) with
        | (.error e, n) => (.error e, (k :: ks).length + n)
        | (.ok (c', ws, ps), n) =>
          (.ok (c', (k :: ks) ++ ws, ds.filterMap id ++ ps), (k :: ks).length + n)

/-- The error message logged by `processKeys` when the surrounding
transaction is rolled back. -/
def archiveErrorLog : String := "Error processing block headers from storage:"

/-- The archive entry point `processKeys`: open a transaction, read the
last cursor, run the page loop, save the cursor and commit — and on any
error roll back, log, and return the processed count normally.  Returns
the committed database state, `totalKeysProcessed`, and the error log
lines emitted. -/
def processKeys (db : ArchiveDb) (listS3 : Option String → List String)
    (pk : String → Except Unit (Option DispatchInfo)) (fuel : Nat) :
    ArchiveDb × Nat × List String :=
  match runPages listS3 pk fuel db.cursor with
  | (.ok (c', ws, ps), n) =>
    ({ blocks := db.blocks ++ ws, cursor := c', bus := db.bus ++ ps }, n, [])
  | (.error _, n) => (db, n, [archiveErrorLog])

/-- Cursor visited by the page loop after `i` fully successful non-empty
pages, or `none` if the loop stops (empty page or a failing key) before
that. -/
def pageCursorAt (listS3 : Option String → List String)
    (pk : String → Except Unit (Option DispatchInfo)) :
    Nat → Option String → Option (Option String)
  | 0, c => some c
  | i + 1, c =>
    match listS3 c with
    | [] => none
    | k :: ks =>
      match processPage pk (k :: ks) with
      | .error _ => none
      | .ok _ => pageCursorAt listS3 pk i (some ((k :: ks).getLast (List.cons_ne_nil k ks)))

/-- A server-sent `BlockHeader` event, reduced to the fields the
streaming handler acts on. -/
structure BlockHeaderEv where
  hash : String
  chainId : Nat
deriving Repr, DecidableEq

/-- State threaded through the streaming handler of `startStreaming`:
the in-memory de-duplication set `blocksAlreadyReceived`, the `Block`
rows persisted (by hash), the `StreamingError` rows `{hash, chainId}`,
the `DispatchInfo` records delivered on the Publication Bus, and the
number of materialiser (`saveBlock`) invocations. -/
structure StreamState where
  blocksAlreadyReceived : List String
  savedBlocks : List String
  streamingErrors : List (String × Nat)
  bus : List DispatchInfo
  materialiserCalls : Nat
deriving Repr, DecidableEq

/-- The materialiser of the streaming path (`saveBlock`): inside its own
transaction it inserts the `Block` row and the derived facts, commits,
and returns the `DispatchInfo`; any failure — the unique constraint on
`Block.hash` firing for an already-persisted hash, or any other
persistence failure (oracle `persistOk`) — rolls the transaction back
and returns `null`.  `mkDispatch` abstracts the `DispatchInfo` built
from the created block and its events. -/
def saveBlock (persistOk : BlockHeaderEv → Bool)
    (mkDispatch : BlockHeaderEv → DispatchInfo)
    (ev : BlockHeaderEv) (s : StreamState) : Option DispatchInfo × StreamState :=
  if ev.hash ∈ s.savedBlocks then (none, s)
  else if persistOk ev then
    (some (mkDispatch ev), { s with savedBlocks := s.savedBlocks ++ [ev.hash] })
  else (none, s)

/-- The `BlockHeader` event handler registered by `startStreaming`: a
hash already in `blocksAlreadyReceived` is silently dropped; otherwise
the hash is added to the set and `saveBlock` is called; a `null` result
creates a `StreamingError{hash, chainId}` row; a non-null result is
returned to the handler, which discards it — no append to the
Publication Bus appears in the handler. -/
def onBlockHeader (persistOk : BlockHeaderEv → Bool)
    (mkDispatch : BlockHeaderEv → DispatchInfo)
    (ev : BlockHeaderEv) (s : StreamState) : StreamState :=
  if ev.hash ∈ s.blocksAlreadyReceived then s
  else
    let s1 : StreamState :=
      { s with blocksAlreadyReceived := s.blocksAlreadyReceived ++ [ev.hash]
               materialiserCalls := s.materialiserCalls + 1 }
    match saveBlock persistOk mkDispatch ev s1 with
    | (none, s2) =>
      { s2 with streamingErrors := s2.streamingErrors ++ [(ev.hash, ev.chainId)] }
    | (some _, s2) => s2

/-- The stream delivering a sequence of `BlockHeader` events to the
handler in order. -/
def processEvents (persistOk : BlockHeaderEv → Bool)
    (mkDispatch : BlockHeaderEv → DispatchInfo)
    (evs : List BlockHeaderEv) (s : StreamState) : StreamState :=
  evs.foldl (fun t ev => onBlockHeader persistOk mkDispatch ev t) s

/-- The `setInterval` callback of `startStreaming` that bounds the
memory of the de-duplication set. -/
def clearBlocksAlreadyReceived (s : StreamState) : StreamState :=
  { s with blocksAlreadyReceived := [] }

/-- Interval, in milliseconds, at which `startStreaming` clears
`blocksAlreadyReceived` (`1000 * 60 * 10`). -/
def CLEAR_INTERVAL_MS : Nat := 1000 * 60 * 10

/-- A `SyncError` row as read by `startRetryErrors` (`source = API`
rows of the given network). -/
structure SyncErrorRow where
  id : Nat
  network : String
  chainId : Nat
  fromHeight : Int
  toHeight : Int
deriving Repr, DecidableEq

/-- The sweep loop of `startRetryErrors`: for each recorded error, retry
`fetchHeadersWithRetry(error.network, error.chainId, error.fromHeight,
error.toHeight)`; on success delete the row, on a thrown error keep the
row, log, and move on to the next error.  Returns the rows kept and the
ids of the rows deleted, in processing order. -/
def retrySweep (fetch : String → Nat → Int → Int → Except Unit Unit) :
    List SyncErrorRow → List SyncErrorRow × List Nat
  | [] => ([], [])
  | e :: rest =>
    match fetch e.network e.chainId e.fromHeight e.toHeight with
    | .ok _ =>
      let (kept, deleted) := retrySweep fetch rest
      (kept, e.id :: deleted)
    | .error _ =>
      let (kept, deleted) := retrySweep fetch rest
      (e :: kept, deleted)

/-- Whether the retried fetch of an error row's range succeeds. -/
def retryFetchOk (fetch : String → Nat → Int → Int → Except Unit Unit)
    (e : SyncErrorRow) : Bool :=
  match fetch e.network e.chainId e.fromHeight e.toHeight with
  | .ok _ => true
  | .error _ => false

/-- The entry point `startRetryErrors` applied to the error rows
returned by `syncErrorService.getErrors(network, SOURCE_API)`. -/
def startRetryErrors (fetch : String → Nat → Int → Int → Except Unit Unit)
    (errors : List SyncErrorRow) : List SyncErrorRow × List Nat :=
  retrySweep fetch errors

/-- A `Balances` row as selected by the guards reconciler. -/
structure BalanceRow where
  id : Nat
  account : String
  chainId : Nat
  module : String
deriving Repr, DecidableEq

/-- A `Guards` row produced by `getGuardsFromBalances`. -/
structure GuardRow where
  account : String
  chainId : Nat
  module : String
  keys : List String
  predicate : String
deriving Repr, DecidableEq

/-- `CONCURRENCY_LIMIT` of `guards.ts`: the number of concurrent
`getGuardsFromBalances` fetches allowed by the `p-limit` gate. -/
def CONCURRENCY_LIMIT : Nat := 50

/-- The batch size of the guards backfill (`const limit = 1000`). -/
def GUARDS_BATCH_LIMIT : Nat := 1000

/-- The batch query of `backfillGuards`
(`SELECT ... FROM "Balances" b WHERE b.id > $2 ORDER BY b.id LIMIT $1`);
the `Balances` table is carried as a list in primary-key order, so the
`ORDER BY` is the list order. -/
def selectBalancesAfter (balances : List BalanceRow) (cur limit : Nat) :
    List BalanceRow :=
  (balances.filter (fun b => cur < b.id)).take limit

/-- The batch loop of `backfillGuards`: select the next batch of balance
rows; when empty, stop; otherwise fetch each row's guards, bulk-insert
them inside a per-batch transaction and commit, advancing `currentId` to
the last row's id; when the bulk insert fails, roll that batch back and
abort the whole reconciliation, keeping only the batches already
committed. -/
def guardsLoop (getGuards : BalanceRow → List GuardRow)
    (insertOk : List GuardRow → Bool) (balances : List BalanceRow) :
    Nat → Nat → List GuardRow → List GuardRow
  | 0, _, acc => acc
  | fuel + 1, cur, acc =>
    match selectBalancesAfter balances cur GUARDS_BATCH_LIMIT with
    | [] => acc
    | r :: rs =>
      let gs := ((r :: rs).map getGuards).flatten
      if insertOk gs then
        guardsLoop getGuards insertOk balances fuel
          (((r :: rs).getLast (List.cons_ne_nil r rs)).id) (acc ++ gs)
      else acc

/-- The guards reconciler `backfillGuards`: first delete every `Guards`
row (and restart its id sequence), then run the batch loop from
`currentId = 0` over the truncated table. -/
def backfillGuards (getGuards : BalanceRow → List GuardRow)
    (insertOk : List GuardRow → Bool) (balances : List BalanceRow)
    (fuel : Nat) (guards0 : List GuardRow) : List GuardRow :=
  let _preExisting := guards0
  let truncated : List GuardRow := []
  guardsLoop getGuards insertOk balances fuel 0 truncated

/-- A cursor condition added by the repositories' paginated queries,
with the bound cursor value. -/
inductive SqlCond where
  | idLt (cursor : Nat)
  | idGt (cursor : Nat)
deriving Repr, DecidableEq

/-- Cursor conditions built by the first `EventDbRepository.getBlockEvents`
(event-db-repository.ts, lines 45-100): `before` appends
`AND e.id < $3` and `after` appends `AND e.id > $3`. -/
def getBlockEventsConditionsV1 (before after : Option Nat) : List SqlCond :=
  (match before with
   | some b => [SqlCond.idLt b]
   | none => []) ++
  (match after with
   | some a => [SqlCond.idGt a]
   | none => [])

/-- Cursor conditions built by the second `EventDbRepository.getBlockEvents`
(event-db-repository.ts, lines 462-514, the documented rewrite): there
`before` appends `AND e.id > $3` and `after` appends `AND e.id < $3`. -/
def getBlockEventsConditionsV2 (before after : Option Nat) : List SqlCond :=
  (match before with
   | some b => [SqlCond.idGt b]
   | none => []) ++
  (match after with
   | some a => [SqlCond.idLt a]
   | none => [])

/-- Satisfaction of a cursor condition by an event id. -/
def SqlCond.holds (c : SqlCond) (id : Nat) : Prop :=
  match c with
  | .idLt b => id < b
  | .idGt a => a < id

/-- A `Blocks` row, reduced to the columns the two
`getTotalCountOfBlockEvents` implementations read. -/
structure BlockRow where
  id : Nat
  hash : String
  transactionsCount : Option Nat
deriving Repr, DecidableEq

/-- A `Transactions` row, reduced to its join keys. -/
structure TransactionRow where
  id : Nat
  blockId : Nat
deriving Repr, DecidableEq

/-- An `Events` row, reduced to its join key. -/
structure EventRow where
  id : Nat
  transactionId : Nat
deriving Repr, DecidableEq

/-- The relational state the two repositories query. -/
structure RelDb where
  blocks : List BlockRow
  transactions : List TransactionRow
  events : List EventRow
deriving Repr, DecidableEq

/-- `BlockDbRepository.getTotalCountOfBlockEvents`:
`BlockModel.findOne({where: {hash}, attributes: ['transactionsCount']})`
followed by `block?.transactionsCount || 0`. -/
def blockRepoGetTotalCountOfBlockEvents (db : RelDb) (hash : String) : Nat :=
  match db.blocks.find? (fun b => b.hash == hash) with
  | none => 0
  | some b => b.transactionsCount.getD 0

/-- `EventDbRepository.getTotalCountOfBlockEvents`: `COUNT(*)` over
`Blocks b JOIN Transactions t ON b.id = t."blockId" JOIN Events e ON
t.id = e."transactionId" WHERE b.hash = $1`. -/
def eventRepoGetTotalCountOfBlockEvents (db : RelDb) (hash : String) : Nat :=
  (((db.blocks.filter (fun b => b.hash == hash)).flatMap
      (fun b => db.transactions.filter (fun t => t.blockId == b.id))).flatMap
    (fun t => db.events.filter (fun e => e.transactionId == t.id))).length

/-- Modelled from the spec: `uint64ToInt64` of `utils/int-uint-64`
(imported by `streaming.ts` but not among the sources) reinterprets an
unsigned 64-bit value as a signed 64-bit integer via two's-complement
wrap (§6: "stored as signed 64-bit via two's-complement
reinterpretation"). -/
def uint64ToInt64 (f : Nat) : Int :=
  if f < 2 ^ 63 then (f : Int) else (f : Int) - 2 ^ 64

/-- Modelled from the spec: the inverse reinterpretation a downstream
read of `featureFlags` must perform (§6), mapping a signed 64-bit value
back to its unsigned two's-complement representative. -/
def int64ToUint64 (i : Int) : Nat := (i % 2 ^ 64).toNat

/-- Sample dispatch record used to evaluate the embedding on concrete
runs. -/
def dEx : DispatchInfo := ⟨"B1", "0", 1, [], []⟩

/-- Empty archive database (no blocks, no cursor, empty bus). -/
def archiveDb0 : ArchiveDb := ⟨[], none, []⟩

/-- Sample listing with a single one-key page: `["k1"]` from the start,
empty afterwards. -/
def listS3ex : Option String → List String := fun c =>
  match c with
  | none => ["k1"]
  | some _ => []

/-- Sample materialiser that succeeds on every key. -/
def pkEx : String → Except Unit (Option DispatchInfo) := fun _ => .ok (some dEx)

/-- Sample listing with two one-key pages `["k1"]`, `["k2"]`. -/
def listS3fail : Option String → List String := fun c =>
  match c with
  | none => ["k1"]
  | some k => if k = "k1" then ["k2"] else []

/-- Sample materialiser that throws on key `"k2"` (the spec's archive
page with mid-key failure). -/
def pkFail : String → Except Unit (Option DispatchInfo) := fun k =>
  if k = "k2" then .error () else .ok (some dEx)

/-- Sample streamed block-header event. -/
def evH : BlockHeaderEv := ⟨"H", 0⟩

/-- Sample dispatch builder for the streaming materialiser. -/
def mkD : BlockHeaderEv → DispatchInfo := fun ev => ⟨ev.hash, "0", 100, [], []⟩

/-- Initial streaming state: nothing received, persisted or published. -/
def sInit : StreamState := ⟨[], [], [], [], 0⟩

/-- Persistence oracle that always succeeds. -/
def persistAlways : BlockHeaderEv → Bool := fun _ => true

/-- Persistence oracle that always fails. -/
def persistNever : BlockHeaderEv → Bool := fun _ => false

/-- Sample balance rows for the guards reconciler. -/
def exB1 : BalanceRow := ⟨1, "alice", 0, "coin"⟩

/-- Second sample balance row. -/
def exB2 : BalanceRow := ⟨2, "bob", 0, "coin"⟩

/-- Sample node query producing one guard per balance row. -/
def exGetGuards : BalanceRow → List GuardRow := fun b =>
  [⟨b.account, b.chainId, b.module, ["pk1"], "keys-all"⟩]

/-- A pre-existing guard row that `backfillGuards` must delete. -/
def exGuardRow : GuardRow := ⟨"carol", 0, "coin", [], "keys-all"⟩

/-- Bulk-insert oracle that fails on every batch. -/
def exInsertFail : List GuardRow → Bool := fun _ => false

/-- Relational state where the block's stored `transactionsCount` (1)
differs from the number of its event rows (2). -/
def relDbEx : RelDb := ⟨[⟨1, "H", some 1⟩], [⟨1, 1⟩], [⟨1, 1⟩, ⟨2, 1⟩]⟩

/-- Relational state with a block whose `transactionsCount` is 7 and no
transaction or event rows. -/
def relDbEx2 : RelDb := ⟨[⟨1, "H", some 7⟩], [], []⟩

/-- A successful page fan-out returns exactly the per-key materialiser
results, and certifies that every key of the page succeeded. -/
theorem processPage_ok {pk : String → Except Unit (Option DispatchInfo)} :
    ∀ {keys : List String} {ds : List (Option DispatchInfo)},
      processPage pk keys = .ok ds →
      ds = keys.map (pkResult pk) ∧ ∀ k ∈ keys, ∃ d, pk k = .ok d := by
  intro keys
  induction keys with
  | nil =>
    intro ds h
    simp only [processPage, Except.ok.injEq] at h
    simp [← h]
  | cons k ks ih =>
    intro ds h
    simp only [processPage] at h
    cases hk : pk k with
    | error e => rw [hk] at h; cases h
    | ok d =>
      rw [hk] at h
      cases hrest : processPage pk ks with
      | error e => rw [hrest] at h; cases h
      | ok ds2 =>
        rw [hrest] at h
        simp only [Except.ok.injEq] at h
        obtain ⟨h1, h2⟩ := ih hrest
        subst h
        refine ⟨by simp [pkResult, hk, h1], ?_⟩
        intro k2 hk2
        rcases List.mem_cons.mp hk2 with rfl | hmem
        · exact ⟨d, hk⟩
        · exact h2 k2 hmem

/-- A page containing a failing key makes the whole fan-out reject. -/
theorem processPage_error_of_mem {pk : String → Except Unit (Option DispatchInfo)}
    {keys : List String} {k : String} (hmem : k ∈ keys) (hk : pk k = .error ()) :
    processPage pk keys = .error () := by
  induction keys with
  | nil => cases hmem
  | cons a t ih =>
    rcases List.mem_cons.mp hmem with rfl | hmem2
    · simp [processPage, hk]
    · simp only [processPage]
      cases ha : pk a with
      | error e => cases e; rfl
      | ok d => rw [ih hmem2]

/-- For a committed page loop, the buffered publish batch holds exactly
the non-null materialiser results of the processed keys: one
`DispatchInfo` per key whose materialisation returned a record, none for
the keys whose materialisation returned `null`, and every processed key
did succeed. -/
theorem runPages_ok_bus {listS3 : Option String → List String}
    {pk : String → Except Unit (Option DispatchInfo)} :
    ∀ {fuel : Nat} {c : Option String} {c' : Option String} {ws : List String}
      {ps : List DispatchInfo} {n : Nat},
      runPages listS3 pk fuel c = (.ok (c', ws, ps), n) →
      ps = ws.filterMap (pkResult pk) ∧ ∀ k ∈ ws, ∃ d, pk k = .ok d := by
  intro fuel
  induction fuel with
  | zero =>
    intro c c' ws ps n h
    simp only [runPages, Prod.mk.injEq, Except.ok.injEq] at h
    obtain ⟨⟨_, h2, h3⟩, _⟩ := h
    subst h2; subst h3
    simp
  | succ f ih =>
    intro c c' ws ps n h
    cases hpage : listS3 c with
    | nil =>
      simp only [runPages, hpage, Prod.mk.injEq, Except.ok.injEq] at h
      obtain ⟨⟨_, h2, h3⟩, _⟩ := h
      subst h2; subst h3
      simp
    | cons k ks =>
      cases hp : processPage pk (k :: ks) with
      | error e =>
        simp only [runPages, hpage, hp] at h
        simp at h
      | ok ds =>
        cases hrec : runPages listS3 pk f
            (some ((k :: ks).getLast (List.cons_ne_nil k ks))) with
        | mk r m =>
          cases r with
          | error e =>
            simp only [runPages, hpage, hp, hrec] at h
            simp at h
          | ok triple =>
            obtain ⟨c2, ws2, ps2⟩ := triple
            simp only [runPages, hpage, hp, hrec, Prod.mk.injEq,
              Except.ok.injEq] at h
            obtain ⟨⟨_, hws, hps⟩, _⟩ := h
            subst hws; subst hps
            obtain ⟨ihps, ihok⟩ := ih hrec
            obtain ⟨hds, hkeys⟩ := processPage_ok hp
            constructor
            · rw [hds, ihps, List.filterMap_map, Function.id_comp,
                ← List.filterMap_append]
            · intro k2 hk2
              rcases List.mem_append.mp hk2 with hmem | hmem
              · exact hkeys k2 hmem
              · exact ihok k2 hmem

/-- For a committed page loop, the final `startAfter` is either the
initial cursor (no non-empty page was consumed) or the last key of the
listing returned at some cursor the loop visited. -/
theorem runPages_ok_cursor {listS3 : Option String → List String}
    {pk : String → Except Unit (Option DispatchInfo)} :
    ∀ {fuel : Nat} {c : Option String} {c' : Option String} {ws : List String}
      {ps : List DispatchInfo} {n : Nat},
      runPages listS3 pk fuel c = (.ok (c', ws, ps), n) →
      c' = c ∨ ∃ cprev, listS3 cprev ≠ [] ∧ c' = (listS3 cprev).getLast? := by
  intro fuel
  induction fuel with
  | zero =>
    intro c c' ws ps n h
    simp only [runPages, Prod.mk.injEq, Except.ok.injEq] at h
    exact Or.inl h.1.1.symm
  | succ f ih =>
    intro c c' ws ps n h
    cases hpage : listS3 c with
    | nil =>
      simp only [runPages, hpage, Prod.mk.injEq, Except.ok.injEq] at h
      exact Or.inl h.1.1.symm
    | cons k ks =>
      cases hp : processPage pk (k :: ks) with
      | error e =>
        simp only [runPages, hpage, hp] at h
        simp at h
      | ok ds =>
        cases hrec : runPages listS3 pk f
            (some ((k :: ks).getLast (List.cons_ne_nil k ks))) with
        | mk r m =>
          cases r with
          | error e =>
            simp only [runPages, hpage, hp, hrec] at h
            simp at h
          | ok triple =>
            obtain ⟨c2, ws2, ps2⟩ := triple
            simp only [runPages, hpage, hp, hrec, Prod.mk.injEq,
              Except.ok.injEq] at h
            obtain ⟨⟨hc, _, _⟩, _⟩ := h
            rcases ih hrec with hsame | ⟨cprev, hne, hlast⟩
            · refine Or.inr ⟨c, ?_, ?_⟩
              · rw [hpage]; exact List.cons_ne_nil k ks
              · rw [← hc, hsame, hpage]
                exact (List.getLast?_eq_getLast (k :: ks)
                  (List.cons_ne_nil k ks)).symm
            · exact Or.inr ⟨cprev, hne, hc ▸ hlast⟩

/-- In a list sorted by `≤`, every element is bounded by the last one. -/
theorem le_getLast_of_sorted :
    ∀ (l : List String), l.Sorted (· ≤ ·) → ∀ (hne : l ≠ []),
      ∀ k ∈ l, k ≤ l.getLast hne := by
  intro l
  induction l with
  | nil => intro _ hne; exact absurd rfl hne
  | cons a t ih =>
    intro hs hne k hk
    rcases List.mem_cons.mp hk with rfl | hkt
    · cases t with
      | nil => simp [List.getLast]
      | cons b t2 =>
        rw [List.getLast_cons (List.cons_ne_nil b t2)]
        exact (List.sorted_cons.mp hs).1 _
          (List.getLast_mem (List.cons_ne_nil b t2))
    · cases t with
      | nil => cases hkt
      | cons b t2 =>
        rw [List.getLast_cons (List.cons_ne_nil b t2)]
        exact ih (List.sorted_cons.mp hs).2 (List.cons_ne_nil b t2) k hkt

/-- If the loop reaches, after `i` successful pages, a cursor whose
listing contains a key the materialiser rejects, then the whole run
rejects (given at least `i + 1` iterations of fuel). -/
theorem runPages_error_of_reach {listS3 : Option String → List String}
    {pk : String → Except Unit (Option DispatchInfo)} :
    ∀ {i : Nat} {c0 c : Option String},
      pageCursorAt listS3 pk i c0 = some c →
      (∃ k ∈ listS3 c, pk k = .error ()) →
      ∀ {fuel : Nat}, i < fuel →
        ∃ n, runPages listS3 pk fuel c0 = (.error (), n) := by
  intro i
  induction i with
  | zero =>
    intro c0 c hreach hbad fuel hfuel
    simp only [pageCursorAt, Option.some.injEq] at hreach
    subst hreach
    obtain ⟨k, hmem, hk⟩ := hbad
    obtain ⟨f, rfl⟩ := Nat.exists_eq_succ_of_ne_zero (Nat.pos_iff_ne_zero.mp hfuel)
    cases hpage : listS3 c0 with
    | nil => rw [hpage] at hmem; cases hmem
    | cons a t =>
      refine ⟨0, ?_⟩
      rw [hpage] at hmem
      have hperr := processPage_error_of_mem hmem hk
      simp only [runPages, hpage, hperr]
  | succ j ih =>
    intro c0 c hreach hbad fuel hfuel
    cases hpage : listS3 c0 with
    | nil => simp only [pageCursorAt, hpage] at hreach; cases hreach
    | cons a t =>
      cases hp : processPage pk (a :: t) with
      | error e => simp only [pageCursorAt, hpage, hp] at hreach; cases hreach
      | ok ds =>
        simp only [pageCursorAt, hpage, hp] at hreach
        obtain ⟨f, rfl⟩ := Nat.exists_eq_succ_of_ne_zero
          (Nat.pos_iff_ne_zero.mp (Nat.lt_of_le_of_lt (Nat.zero_le _) hfuel))
        obtain ⟨n, hn⟩ := ih hreach hbad (Nat.lt_of_succ_lt_succ hfuel)
        refine ⟨(a :: t).length + n, ?_⟩
        simp only [runPages, hpage, hp, hn]

/-- C6: for every `SyncError` row processed by `startRetryErrors`, the
row is deleted if and only if the retried fetch of its
`(fromHeight, toHeight)` range succeeds; if the retry throws, the row is
kept and the sweep moves on to the next error without aborting — so the
rows kept are exactly the rows whose retry failed, and the ids deleted
are exactly the ids of the rows whose retry succeeded, in order. -/
theorem startRetryErrors_delete_iff_success
    (fetch : String → Nat → Int → Int → Except Unit Unit)
    (errors : List SyncErrorRow) :
    startRetryErrors fetch errors =
      (errors.filter (fun e => !retryFetchOk fetch e),
       (errors.filter (fun e => retryFetchOk fetch e)).map (fun e => e.id)) := by
  unfold startRetryErrors
  induction errors with
  | nil => simp [retrySweep]
  | cons e rest ih =>
    simp only [retrySweep]
    cases hf : fetch e.network e.chainId e.fromHeight e.toHeight with
    | ok u =>
      simp only [ih, List.filter_cons]
      simp [retryFetchOk, hf]
    | error u =>
      simp only [ih, List.filter_cons]
      simp [retryFetchOk, hf]

/-- C8 counterexample: in the second `getBlockEvents` implementation
(event-db-repository.ts, lines 462-514), supplying only a `before`
cursor with value 5 adds the condition `e.id > 5`, not `e.id < 5` as the
claim states. -/
theorem getBlockEventsV2_before_not_lt :
    getBlockEventsConditionsV2 (some 5) none = [SqlCond.idGt 5] ∧
    getBlockEventsConditionsV2 (some 5) none ≠ [SqlCond.idLt 5] := by
  refine ⟨rfl, ?_⟩
  decide

/-- C8 (amended): the first `getBlockEvents` (lines 45-100) builds
`e.id < before` from `before` and `e.id > after` from `after` — an event
id satisfies its conditions exactly when it lies below `before` and
above `after` — while the second `getBlockEvents` (lines 462-514) builds
the swapped conditions `e.id > before` and `e.id < after`. -/
theorem getBlockEvents_cursor_conditions (b a id : Nat) :
    ((∀ cond ∈ getBlockEventsConditionsV1 (some b) (some a), cond.holds id) ↔
      (id < b ∧ a < id)) ∧
    ((∀ cond ∈ getBlockEventsConditionsV2 (some b) (some a), cond.holds id) ↔
      (b < id ∧ id < a)) ∧
    getBlockEventsConditionsV1 (some b) none = [SqlCond.idLt b] ∧
    getBlockEventsConditionsV1 none (some a) = [SqlCond.idGt a] ∧
    getBlockEventsConditionsV2 (some b) none = [SqlCond.idGt b] ∧
    getBlockEventsConditionsV2 none (some a) = [SqlCond.idLt a] := by
  refine ⟨?_, ?_, rfl, rfl, rfl, rfl⟩ <;>
    simp [getBlockEventsConditionsV1, getBlockEventsConditionsV2, SqlCond.holds]

/-- C9: reinterpreting any unsigned 64-bit value as a signed 64-bit
integer via `uint64ToInt64` (as done to `featureFlags` before storing a
block) lands in the signed 64-bit range, and applying the inverse
reinterpretation recovers the original value — the round-trip is the
identity on all `2 ^ 64` values. -/
theorem uint64ToInt64_roundtrip (f : Nat) (hf : f < 2 ^ 64) :
    int64ToUint64 (uint64ToInt64 f) = f ∧
    -(2 ^ 63) ≤ uint64ToInt64 f ∧ uint64ToInt64 f < 2 ^ 63 := by
  have h63 : (2 : Int) ^ 63 = 9223372036854775808 := by norm_num
  have h64 : (2 : Int) ^ 64 = 18446744073709551616 := by norm_num
  have h63n : (2 : Nat) ^ 63 = 9223372036854775808 := by norm_num
  have h64n : (2 : Nat) ^ 64 = 18446744073709551616 := by norm_num
  unfold uint64ToInt64 int64ToUint64
  rw [h63n, h64n] at *
  split <;> rw [h63, h64] <;> omega

/-- C9 witness: the round-trip at the concrete value `2 ^ 63 + 5`, which
exercises the negative (wrapped) branch of the reinterpretation. -/
theorem uint64ToInt64_roundtrip_witness :
    2 ^ 63 + 5 < 2 ^ 64 ∧
    int64ToUint64 (uint64ToInt64 (2 ^ 63 + 5)) = 2 ^ 63 + 5 := by
  refine ⟨by norm_num, ?_⟩
  exact (uint64ToInt64_roundtrip (2 ^ 63 + 5) (by norm_num)).1

/-- C10: `BlockDbRepository.getTotalCountOfBlockEvents` answers from the
block's stored `transactionsCount` attribute — 0 when no block carries
the hash or the attribute is null — and not from a count of `Events`
rows, so it can disagree with
`EventDbRepository.getTotalCountOfBlockEvents`, which counts events
joined through transactions: on `relDbEx` the former returns the stored
1 while the latter counts the 2 event rows. -/
theorem blockRepo_vs_eventRepo_totalCount (db : RelDb) (hs : String) :
    (db.blocks.find? (fun b => b.hash == hs) = none →
      blockRepoGetTotalCountOfBlockEvents db hs = 0) ∧
    (∀ b, db.blocks.find? (fun b2 => b2.hash == hs) = some b →
      blockRepoGetTotalCountOfBlockEvents db hs = b.transactionsCount.getD 0) ∧
    blockRepoGetTotalCountOfBlockEvents relDbEx "H" = 1 ∧
    eventRepoGetTotalCountOfBlockEvents relDbEx "H" = 2 := by
  refine ⟨?_, ?_, rfl, rfl⟩
  · intro hnone
    unfold blockRepoGetTotalCountOfBlockEvents
    rw [hnone]
  · intro b hb
    unfold blockRepoGetTotalCountOfBlockEvents
    rw [hb]

/-- C10 witness: the theorem applied to `relDbEx2`, whose single block
row stores `transactionsCount = 7` for hash `"H"`. -/
theorem blockRepo_vs_eventRepo_totalCount_witness :
    blockRepoGetTotalCountOfBlockEvents relDbEx2 "H" = 7 := by
  have h := (blockRepo_vs_eventRepo_totalCount relDbEx2 "H").2.1
    ⟨1, "H", some 7⟩ (by decide)
  simpa using h

/-- C4: a `BlockHeader` event whose hash is already in the in-memory
`blocksAlreadyReceived` set is dropped without calling the materialiser
(the state is left untouched); hence a block delivered twice inside one
clearing window causes exactly one materialiser call and one `Block`
row; the set is cleared by the interval callback, which fires every
`CLEAR_INTERVAL_MS = 600000` milliseconds (10 minutes). -/
theorem streaming_dedup (persistOk : BlockHeaderEv → Bool)
    (mkDispatch : BlockHeaderEv → DispatchInfo) :
    (∀ ev s, ev.hash ∈ s.blocksAlreadyReceived →
      onBlockHeader persistOk mkDispatch ev s = s) ∧
    (∀ ev s, ev.hash ∉ s.blocksAlreadyReceived → ev.hash ∉ s.savedBlocks →
      persistOk ev = true →
      (processEvents persistOk mkDispatch [ev, ev] s).materialiserCalls
        = s.materialiserCalls + 1 ∧
      (processEvents persistOk mkDispatch [ev, ev] s).savedBlocks
        = s.savedBlocks ++ [ev.hash] ∧
      (processEvents persistOk mkDispatch [ev, ev] s).streamingErrors
        = s.streamingErrors) ∧
    CLEAR_INTERVAL_MS = 600000 ∧
    (∀ s, (clearBlocksAlreadyReceived s).blocksAlreadyReceived = []) := by
  refine ⟨?_, ?_, rfl, fun s => rfl⟩
  · intro ev s hmem
    simp [onBlockHeader, hmem]
  · intro ev s hrecv hsaved hok
    have h1 : onBlockHeader persistOk mkDispatch ev s =
        { s with blocksAlreadyReceived := s.blocksAlreadyReceived ++ [ev.hash]
                 savedBlocks := s.savedBlocks ++ [ev.hash]
                 materialiserCalls := s.materialiserCalls + 1 } := by
      simp [onBlockHeader, saveBlock, hrecv, hsaved, hok]
    have h2 : processEvents persistOk mkDispatch [ev, ev] s =
        onBlockHeader persistOk mkDispatch ev
          (onBlockHeader persistOk mkDispatch ev s) := rfl
    have hmem2 : ev.hash ∈ (onBlockHeader persistOk mkDispatch ev s).blocksAlreadyReceived := by
      rw [h1]
      simp
    have hdrop : ∀ t : StreamState, ev.hash ∈ t.blocksAlreadyReceived →
        onBlockHeader persistOk mkDispatch ev t = t := by
      intro t hm
      simp [onBlockHeader, hm]
    rw [h2, hdrop _ hmem2, h1]
    exact ⟨rfl, rfl, rfl⟩

/-- C4 witness: the event `evH` delivered twice to the fresh state with
an always-succeeding persistence oracle yields one materialiser call,
one saved block and no streaming error. -/
theorem streaming_dedup_witness :
    (processEvents persistAlways mkD [evH, evH] sInit).materialiserCalls = 1 ∧
    (processEvents persistAlways mkD [evH, evH] sInit).savedBlocks = ["H"] := by
  have h := (streaming_dedup persistAlways mkD).2.1 evH sInit
    (by decide) (by decide) rfl
  exact ⟨h.1, h.2.1⟩

/-- C5: for a not-yet-seen event, when `saveBlock` returns null — the
hash is already persisted (unique-constraint rollback) or persistence
fails — the handler creates the `StreamingError{hash, chainId}` row and
persists nothing; when `saveBlock` succeeds no `StreamingError` row is
created; and the stream goes on processing the remaining events either
way. -/
theorem streaming_error_rows (persistOk : BlockHeaderEv → Bool)
    (mkDispatch : BlockHeaderEv → DispatchInfo) :
    (∀ ev s, ev.hash ∉ s.blocksAlreadyReceived →
      ((ev.hash ∈ s.savedBlocks ∨ persistOk ev = false) →
        (onBlockHeader persistOk mkDispatch ev s).streamingErrors
          = s.streamingErrors ++ [(ev.hash, ev.chainId)] ∧
        (onBlockHeader persistOk mkDispatch ev s).savedBlocks = s.savedBlocks) ∧
      (ev.hash ∉ s.savedBlocks → persistOk ev = true →
        (onBlockHeader persistOk mkDispatch ev s).streamingErrors
          = s.streamingErrors)) ∧
    (∀ ev rest s, processEvents persistOk mkDispatch (ev :: rest) s
        = processEvents persistOk mkDispatch rest
            (onBlockHeader persistOk mkDispatch ev s)) := by
  refine ⟨?_, fun ev rest s => rfl⟩
  intro ev s hrecv
  constructor
  · intro hnull
    rcases hnull with hsaved | hfail
    · constructor <;> simp [onBlockHeader, saveBlock, hrecv, hsaved]
    · by_cases hsaved : ev.hash ∈ s.savedBlocks
      · constructor <;> simp [onBlockHeader, saveBlock, hrecv, hsaved]
      · constructor <;> simp [onBlockHeader, saveBlock, hrecv, hsaved, hfail]
  · intro hsaved hok
    simp [onBlockHeader, saveBlock, hrecv, hsaved, hok]

/-- C5 witness: with the always-failing persistence oracle, the fresh
state gains exactly the `StreamingError` row `("H", 0)` and no block. -/
theorem streaming_error_rows_witness :
    (onBlockHeader persistNever mkD evH sInit).streamingErrors = [("H", 0)] ∧
    (onBlockHeader persistNever mkD evH sInit).savedBlocks = [] := by
  have h := ((streaming_error_rows persistNever mkD).1 evH sInit (by decide)).1
    (Or.inr rfl)
  simpa using h

/-- C1 counterexample: on the streaming path a materialiser transaction
that commits appends zero `DispatchInfo` records to the Publication
Bus, not exactly one — `startStreaming` discards the record `saveBlock`
returns: processing `evH` from the fresh state persists the block
(the transaction committed) yet the bus stays empty. -/
theorem streaming_commit_appends_no_dispatch :
    (onBlockHeader persistAlways mkD evH sInit).savedBlocks = ["H"] ∧
    (onBlockHeader persistAlways mkD evH sInit).bus.length = 0 ∧
    (onBlockHeader persistAlways mkD evH sInit).bus.length ≠ 1 := by
  refine ⟨rfl, rfl, ?_⟩
  decide

/-- C1 (amended): on the archive path a committed `processKeys` run
delivers on the Bus exactly one `DispatchInfo` per processed key whose
materialisation returned a record (none for null results), every
processed key having succeeded, and a rolled-back run delivers none —
while on the streaming path the handler never appends to the Bus, even
for a transaction that commits. -/
theorem bus_appends_per_materialisation
    (listS3 : Option String → List String)
    (pk : String → Except Unit (Option DispatchInfo))
    (fuel : Nat) (db : ArchiveDb) :
    (∀ c' ws ps n, runPages listS3 pk fuel db.cursor = (.ok (c', ws, ps), n) →
      (processKeys db listS3 pk fuel).1.bus = db.bus ++ ps ∧
      ps = ws.filterMap (pkResult pk) ∧
      ∀ k ∈ ws, ∃ d, pk k = .ok d) ∧
    (∀ e n, runPages listS3 pk fuel db.cursor = (.error e, n) →
      (processKeys db listS3 pk fuel).1 = db) ∧
    (∀ persistOk mkDispatch ev s,
      (onBlockHeader persistOk mkDispatch ev s).bus = s.bus) := by
  refine ⟨?_, ?_, ?_⟩
  · intro c' ws ps n h
    obtain ⟨hps, hok⟩ := runPages_ok_bus h
    refine ⟨?_, hps, hok⟩
    unfold processKeys
    rw [h]
  · intro e n h
    unfold processKeys
    rw [h]
  · intro persistOk mkDispatch ev s
    unfold onBlockHeader saveBlock
    by_cases hrecv : ev.hash ∈ s.blocksAlreadyReceived
    · simp [hrecv]
    · by_cases hsaved : ev.hash ∈ s.savedBlocks
      · simp [hrecv, hsaved]
      · by_cases hok : persistOk ev
        · simp [hrecv, hsaved, hok]
        · simp [hrecv, hsaved, hok]

/-- C1 witness: the amended theorem evaluated on the one-page listing
`listS3ex` with the always-succeeding materialiser `pkEx`: the committed
run delivers exactly the one record of its one processed key. -/
theorem bus_appends_per_materialisation_witness :
    (processKeys archiveDb0 listS3ex pkEx 2).1.bus = [dEx] ∧
    (onBlockHeader persistNever mkD evH sInit).bus = sInit.bus := by
  have h := (bus_appends_per_materialisation listS3ex pkEx 2 archiveDb0).1
    (some "k1") ["k1"] [dEx] 1 rfl
  have h2 := (bus_appends_per_materialisation listS3ex pkEx 2 archiveDb0).2.2
    persistNever mkD evH sInit
  exact ⟨by simpa using h.1, h2⟩

/-- C2: when materialising a key of a page the archive run reaches
fails, `processKeys` rolls back its single surrounding transaction —
no block of the run is persisted, the stored cursor is unchanged,
nothing is published — logs the error once, and still returns normally
with the keys counted so far; more generally any error in the run
leaves the database exactly as it was. -/
theorem processKeys_failure_rollback
    (listS3 : Option String → List String)
    (pk : String → Except Unit (Option DispatchInfo))
    (db : ArchiveDb) (fuel : Nat) :
    (∀ i c, pageCursorAt listS3 pk i db.cursor = some c →
      (∃ k ∈ listS3 c, pk k = .error ()) → i < fuel →
      ∃ n, processKeys db listS3 pk fuel = (db, n, [archiveErrorLog])) ∧
    (∀ e n, runPages listS3 pk fuel db.cursor = (.error e, n) →
      processKeys db listS3 pk fuel = (db, n, [archiveErrorLog])) := by
  constructor
  · intro i c hreach hbad hfuel
    obtain ⟨n, hn⟩ := runPages_error_of_reach hreach hbad hfuel
    refine ⟨n, ?_⟩
    unfold processKeys
    rw [hn]
  · intro e n h
    unfold processKeys
    rw [h]

/-- C2 witness: the two-page run `["k1"]`, `["k2"]` whose second key
throws (the spec's mid-key-failure scenario): the whole run rolls back
to the initial database and one error line is logged. -/
theorem processKeys_failure_rollback_witness :
    ∃ n, processKeys archiveDb0 listS3fail pkFail 3
      = (archiveDb0, n, [archiveErrorLog]) := by
  refine (processKeys_failure_rollback listS3fail pkFail archiveDb0 3).1
    1 (some "k1") rfl ⟨"k2", ?_, rfl⟩ (by norm_num)
  decide

/-- C3: for a committed archive run the cursor `processKeys` saves is
either the unchanged initial cursor (no non-empty page was consumed —
in particular, when the first listing is empty the run commits with the
cursor as it was and zero keys processed) or the last key of the final
non-empty page the listing returned, which under sorted listings is
that page's lexicographic maximum. -/
theorem processKeys_cursor_spec
    (listS3 : Option String → List String)
    (pk : String → Except Unit (Option DispatchInfo))
    (db : ArchiveDb) (fuel : Nat)
    (hsorted : ∀ c, (listS3 c).Sorted (· ≤ ·)) :
    (listS3 db.cursor = [] → processKeys db listS3 pk fuel = (db, 0, [])) ∧
    (∀ c' ws ps n, runPages listS3 pk fuel db.cursor = (.ok (c', ws, ps), n) →
      (processKeys db listS3 pk fuel).1.cursor = c' ∧
      (c' = db.cursor ∨
        ∃ cprev m, listS3 cprev ≠ [] ∧ (listS3 cprev).getLast? = some m ∧
          c' = some m ∧ m ∈ listS3 cprev ∧ ∀ k ∈ listS3 cprev, k ≤ m)) := by
  constructor
  · intro hempty
    obtain ⟨bl, cu, bu⟩ := db
    simp only at hempty
    cases fuel with
    | zero => simp [processKeys, runPages]
    | succ f => simp [processKeys, runPages, hempty]
  · intro c' ws ps n h
    constructor
    · unfold processKeys
      rw [h]
    · rcases runPages_ok_cursor h with hsame | ⟨cprev, hne, hlast⟩
      · exact Or.inl hsame
      · refine Or.inr ⟨cprev, (listS3 cprev).getLast hne,
          hne, List.getLast?_eq_getLast _ hne, ?_,
          List.getLast_mem hne,
          le_getLast_of_sorted (listS3 cprev) (hsorted cprev) hne⟩
        rw [hlast, List.getLast?_eq_getLast _ hne]

/-- C3 witness: the one-page sorted listing `listS3ex` with the
always-succeeding materialiser: the committed cursor is `"k1"`, the
last (and maximal) key of the only non-empty page. -/
theorem processKeys_cursor_spec_witness :
    (processKeys archiveDb0 listS3ex pkEx 2).1.cursor = some "k1" := by
  have hsorted : ∀ c, (listS3ex c).Sorted (· ≤ ·) := by
    intro c
    cases c <;> simp [listS3ex]
  exact ((processKeys_cursor_spec listS3ex pkEx archiveDb0 2 hsorted).2
    (some "k1") ["k1"] [dEx] 1 rfl).1

/-- On a table in strictly increasing id order, the batch query selects
the next `limit` rows after `cur` in id order. -/
theorem selectBalancesAfter_sorted
    (balances : List BalanceRow) (cur limit : Nat)
    (hsorted : balances.Pairwise (fun x y => x.id < y.id)) :
    selectBalancesAfter balances cur limit
      = (balances.dropWhile (fun b => b.id ≤ cur)).take limit := by
  unfold selectBalancesAfter
  congr 1
  induction balances with
  | nil => rfl
  | cons b bs ih =>
    obtain ⟨hb, hbs⟩ := List.pairwise_cons.mp hsorted
    by_cases hcur : cur < b.id
    · have hall : ∀ y ∈ bs, cur < y.id := fun y hy =>
        Nat.lt_trans hcur (hb y hy)
      rw [List.filter_cons_of_pos (by simpa using hcur),
        List.dropWhile_cons_of_neg (by simpa using hcur)]
      congr 1
      exact List.filter_eq_self.mpr (fun y hy => by simpa using hall y hy)
    · rw [List.filter_cons_of_neg (by simpa using hcur),
        List.dropWhile_cons_of_pos (by simpa using Nat.not_lt.mp hcur)]
      exact ih hbs

/-- C7: `backfillGuards` first truncates the `Guards` table (the result
never depends on the pre-existing rows), then walks `Balances` in
id-ascending batches of `GUARDS_BATCH_LIMIT = 1000` rows (the node
fetches gated at `CONCURRENCY_LIMIT = 50` in-flight requests): an empty
batch ends the run; a batch whose bulk insert succeeds is committed and
the loop continues after its last row id; a batch whose bulk insert
fails is rolled back and the whole reconciliation aborts, leaving the
table holding only the batches already committed. -/
theorem backfillGuards_spec (getGuards : BalanceRow → List GuardRow)
    (insertOk : List GuardRow → Bool) (balances : List BalanceRow)
    (fuel : Nat) (guards0 : List GuardRow) :
    backfillGuards getGuards insertOk balances fuel guards0
      = guardsLoop getGuards insertOk balances fuel 0 [] ∧
    GUARDS_BATCH_LIMIT = 1000 ∧ CONCURRENCY_LIMIT = 50 ∧
    (balances.Pairwise (fun x y => x.id < y.id) → ∀ cur,
      selectBalancesAfter balances cur GUARDS_BATCH_LIMIT
        = (balances.dropWhile (fun b => b.id ≤ cur)).take 1000) ∧
    (∀ f cur acc,
      selectBalancesAfter balances cur GUARDS_BATCH_LIMIT = [] →
      guardsLoop getGuards insertOk balances (f + 1) cur acc = acc) ∧
    (∀ f cur acc r rs,
      selectBalancesAfter balances cur GUARDS_BATCH_LIMIT = r :: rs →
      (insertOk (((r :: rs).map getGuards).flatten) = false →
        guardsLoop getGuards insertOk balances (f + 1) cur acc = acc) ∧
      (insertOk (((r :: rs).map getGuards).flatten) = true →
        guardsLoop getGuards insertOk balances (f + 1) cur acc
          = guardsLoop getGuards insertOk balances f
              (((r :: rs).getLast (List.cons_ne_nil r rs)).id)
              (acc ++ ((r :: rs).map getGuards).flatten))) := by
  refine ⟨rfl, rfl, rfl, ?_, ?_, ?_⟩
  · intro hsorted cur
    exact selectBalancesAfter_sorted balances cur GUARDS_BATCH_LIMIT hsorted
  · intro f cur acc hempty
    simp only [guardsLoop, hempty]
  · intro f cur acc r rs hbatch
    constructor
    · intro hfail
      simp only [guardsLoop, hbatch, hfail]
      simp
    · intro hok
      simp only [guardsLoop, hbatch, hok]
      simp

/-- C7 witness: the theorem evaluated on the two-row balances table with
an always-failing bulk insert: the first batch is `[exB1, exB2]`, its
insertion fails, and the reconciliation leaves the truncated table
empty — the pre-existing row `exGuardRow` is gone. -/
theorem backfillGuards_spec_witness :
    backfillGuards exGetGuards exInsertFail [exB1, exB2] 1 [exGuardRow] = [] := by
  have h := backfillGuards_spec exGetGuards exInsertFail [exB1, exB2] 1 [exGuardRow]
  have hstep := (h.2.2.2.2.2 0 0 [] exB1 [exB2] (by decide)).1 rfl
  rw [h.1, hstep]
